import Mathlib

/-!
Verification of the Site Registry of `ryoma-abe/site-launcher`
(`src/shared/sites.ts`), shallowly embedded in Lean 4.

Host-API modelling conventions, used consistently below:
* `String.prototype.trim`, `String.prototype.toUpperCase` and
  `String.prototype.toLowerCase` are modelled on ASCII text by `jsTrim`,
  `jsToUpper`, `jsToLower`.
* the WHATWG `new URL(input)` constructor (absolute URL, no base) is modelled
  by `jsURLCanParse`, restricted to the fragment exercised here (no IPv6
  bracket hosts, no percent-escapes, `file:` not treated as a special scheme).
* `JSON.parse` / `JSON.stringify` are abstracted at the level of parsed JSON
  values (`Json`): a function receiving the result of `JSON.parse(text)`
  takes an `Option Json`, `none` standing for the parse throwing, and the
  serializer produces the `Json` value that stringification would print.
* `chrome.i18n.getMessage(k)` is modelled as returning its message key `k`.
* `chrome.storage.local` effects are made explicit: `loadSites` takes a
  `StorageRead` describing what the read produced (a value, an absent key, or
  a thrown error), and each mutating operation returns, next to its result,
  an `Option (List Site)` recording the argument of the `saveSites` call it
  performed (`none` when it never wrote).
-/

namespace SiteLauncher

/-- Parsed JSON values, the output type of the host `JSON.parse`. -/
inductive Json where
  | null : Json
  | bool (b : Bool) : Json
  | num (n : Int) : Json
  | str (s : String) : Json
  | arr (elems : List Json) : Json
  | obj (fields : List (String × Json)) : Json

/-- The Site record of `src/types` used throughout `src/shared/sites.ts`:
`{name, url, key}`, all strings. -/
structure Site where
  name : String
  url : String
  key : String
deriving DecidableEq, Repr

/-- ASCII whitespace stripped by the JavaScript string `trim` method. -/
def jsWhitespaceChar (c : Char) : Bool :=
  c = ' ' ∨ c = '\t' ∨ c = '\n' ∨ c = '\r' ∨ c = '\x0b' ∨ c = '\x0c'

/-- Model of `String.prototype.trim` (ASCII fragment). -/
def jsTrim (s : String) : String :=
  String.mk (((s.data.dropWhile jsWhitespaceChar).reverse.dropWhile
    jsWhitespaceChar).reverse)

/-- Model of `String.prototype.toUpperCase` (ASCII fragment). -/
def jsToUpper (s : String) : String :=
  String.mk (s.data.map Char.toUpper)

/-- Model of `String.prototype.toLowerCase` (ASCII fragment). -/
def jsToLower (s : String) : String :=
  String.mk (s.data.map Char.toLower)

/-- The valid shortcut keys, `sites.ts` line 15:
`'ABCDEFGHIJKLMNOPQRSTUVWXYZ0123456789'.split('')`. -/
def VALID_KEYS : List String :=
  ["A", "B", "C", "D", "E", "F", "G", "H", "I", "J", "K", "L", "M",
   "N", "O", "P", "Q", "R", "S", "T", "U", "V", "W", "X", "Y", "Z",
   "0", "1", "2", "3", "4", "5", "6", "7", "8", "9"]

/-- The built-in default registry, `sites.ts` lines 5-7. -/
def DEFAULT_SITES : List Site :=
  [{ name := "Google", url := "https://google.com", key := "G" }]

/-! Model of the WHATWG URL constructor's success or failure. -/

/-- ASCII alphabetic character. -/
def asciiAlpha (c : Char) : Bool :=
  ('a' ≤ c ∧ c ≤ 'z') ∨ ('A' ≤ c ∧ c ≤ 'Z')

/-- Characters allowed after the first character of a URL scheme. -/
def urlSchemeChar (c : Char) : Bool :=
  asciiAlpha c ∨ c.isDigit ∨ c = '+' ∨ c = '-' ∨ c = '.'

/-- URL input normalization: strip surrounding whitespace, then remove every
tab and newline, per the WHATWG URL parser's input preprocessing. -/
def urlInput (s : String) : List Char :=
  (jsTrim s).data.filter (fun c => ¬(c = '\t' ∨ c = '\n' ∨ c = '\r'))

/-- Reads the remainder of a scheme after its first character; yields the
scheme characters read so far paired with the text after the colon. -/
def urlSchemeTail (acc : List Char) : List Char → Option (List Char × List Char)
  | [] => none
  | c :: rest =>
      if c = ':' then some (acc, rest)
      else if urlSchemeChar c then urlSchemeTail (acc ++ [c]) rest
      else none

/-- Splits a URL into scheme characters and the remainder, or fails when the
input has no scheme (in which case the URL constructor throws: there is no
base URL anywhere in this code base). -/
def urlSplitScheme : List Char → Option (List Char × List Char)
  | [] => none
  | c :: rest => if asciiAlpha c then urlSchemeTail [c] rest else none

/-- The special schemes whose authority is validated strictly (the `file`
scheme is left out of the model: it never occurs in this program). -/
def urlSpecialSchemes : List String := ["http", "https", "ws", "wss", "ftp"]

/-- Forbidden host characters of the WHATWG URL standard (the percent sign is
included because percent-escapes are not modelled). -/
def urlForbiddenHostChar (c : Char) : Bool :=
  c.toNat < 32 ∨ c = ' ' ∨ c = '#' ∨ c = '/' ∨ c = ':' ∨ c = '<' ∨ c = '>' ∨
  c = '?' ∨ c = '@' ∨ c = '[' ∨ c = '\\' ∨ c = ']' ∨ c = '^' ∨ c = '|' ∨
  c.toNat = 127 ∨ c = '%'

/-- Numeric value of a digit string. -/
def urlPortVal (l : List Char) : Nat :=
  l.foldl (fun a c => a * 10 + (c.toNat - 48)) 0

/-- Validates the part after `scheme:` of a special-scheme URL: skip the
slashes, read the authority, drop user info, and require a non-empty host of
allowed characters together with an empty or in-range numeric port. -/
def urlValidSpecialRest (rest : List Char) : Bool :=
  let afterSlashes := rest.dropWhile (fun c => c = '/' ∨ c = '\\')
  let authority := afterSlashes.takeWhile
    (fun c => ¬(c = '/' ∨ c = '?' ∨ c = '#' ∨ c = '\\'))
  let hostPort :=
    if authority.contains '@' then
      (authority.reverse.takeWhile (fun c => c ≠ '@')).reverse
    else authority
  let host :=
    if hostPort.contains ':' then
      ((hostPort.reverse.dropWhile (fun c => c ≠ ':')).drop 1).reverse
    else hostPort
  let portStr :=
    if hostPort.contains ':' then
      (hostPort.reverse.takeWhile (fun c => c ≠ ':')).reverse
    else []
  decide (host ≠ []) && host.all (fun c => ¬ urlForbiddenHostChar c) &&
    portStr.all Char.isDigit &&
    (portStr.isEmpty || decide (urlPortVal portStr ≤ 65535))

/-- Model of `new URL(s)` succeeding: the input must carry a scheme, and a
special scheme must be followed by a well-formed authority.  A URL with a
non-special scheme (an opaque path) is accepted. -/
def jsURLCanParse (s : String) : Bool :=
  match urlSplitScheme (urlInput s) with
  | none => false
  | some (schemeChars, rest) =>
      let scheme := String.mk (schemeChars.map Char.toLower)
      if urlSpecialSchemes.contains scheme then urlValidSpecialRest rest
      else true

/-- Test of the regular expression on `sites.ts` line 60 (an http or https
scheme with slashes at the start of the string, ignoring case). -/
def hasHttpScheme (l : List Char) : Bool :=
  (l.take 7).map Char.toLower = "http://".data ∨
  (l.take 8).map Char.toLower = "https://".data

/-- `normalizeUrl`, `sites.ts` lines 54-65: trim, then put `https://` in front
unless the string already starts with an http or https scheme. -/
def normalizeUrl (url : String) : String :=
  let trimmed := jsTrim url
  if trimmed = "" then trimmed
  else if hasHttpScheme trimmed.data then trimmed
  else "https://" ++ trimmed

/-- Core of `sanitizeSite`, `sites.ts` lines 17-52, applied once the three
fields have been extracted as strings: reject an empty name, url or key,
normalize the key and require it to be a valid shortcut key, require the raw
url to parse, and return the trimmed name, normalized url and key. -/
def sanitizeFields (name url key : String) : Option Site :=
  if name = "" then none
  else if url = "" then none
  else if key = "" then none
  else
    let normalizedKey := jsToUpper (jsTrim key)
    if normalizedKey ∉ VALID_KEYS then none
    else if ¬ (jsURLCanParse url = true) then none
    else some { name := jsTrim name, url := normalizeUrl url, key := normalizedKey }

/-- Property lookup on a parsed-JSON object; `JSON.parse` keeps the last of
duplicate keys, hence the search from the end. -/
def jlookup (fields : List (String × Json)) (k : String) : Option Json :=
  (fields.reverse.find? (fun p => p.1 = k)).map (fun p => p.2)

/-- `sanitizeSite`, `sites.ts` lines 17-52, on an untrusted JSON record: the
argument must be an object whose `name`, `url` and `key` properties are all
non-empty strings (the code's truthiness and `typeof` checks), after which
`sanitizeFields` applies the remaining rules. -/
def sanitizeSite (j : Json) : Option Site :=
  match j with
  | .obj fields =>
      match jlookup fields "name", jlookup fields "url", jlookup fields "key" with
      | some (.str n), some (.str u), some (.str k) => sanitizeFields n u k
      | _, _, _ => none
  | _ => none

/-- The JSON record printed for a Site by `JSON.stringify`. -/
def siteToJson (s : Site) : Json :=
  .obj [("name", .str s.name), ("url", .str s.url), ("key", .str s.key)]

/-- Deduplication loop of `sanitizeSiteList`, `sites.ts` lines 111-121: walk
the list with a seen-set of upper-cased keys, keep the first holder of each
key and store it with the upper-cased key. -/
def dedupUpper : List Site → List String → List Site
  | [], _ => []
  | s :: rest, seen =>
      let upperKey := jsToUpper s.key
      if upperKey ∈ seen then dedupUpper rest seen
      else { s with key := upperKey } :: dedupUpper rest (upperKey :: seen)

/-- `sanitizeSiteList`, `sites.ts` lines 102-124: a non-array input yields the
empty list; an array is mapped through `sanitizeSite`, failures are dropped,
and the survivors are deduplicated by upper-cased key, first occurrence
winning. -/
def sanitizeSiteList (j : Json) : List Site :=
  match j with
  | .arr elems => dedupUpper (elems.filterMap sanitizeSite) []
  | _ => []

/-- Deduplication loop of `loadSites`, `sites.ts` lines 80-89: same shape, but
keyed and stored by the key exactly as found (no upper-casing here). -/
def dedupKeep : List Site → List String → List Site
  | [], _ => []
  | s :: rest, seen =>
      if s.key ∈ seen then dedupKeep rest seen
      else s :: dedupKeep rest (s.key :: seen)

/-- Outcome of the `chrome.storage.local.get` call in `loadSites`: the read
threw, or it produced the raw value stored under the `sites` key (`none` when
the key is absent). -/
inductive StorageRead where
  | threw : StorageRead
  | value (v : Option Json) : StorageRead

/-- `loadSites`, `sites.ts` lines 67-96: an absent or non-array raw value and
a thrown read both fall back to the default registry; an array is sanitized
and deduplicated, with a fallback to the default when nothing survives.
A falsy raw value (the code's `!rawSites` test) is never an array, so it is
covered by the non-array branch of the model. -/
def loadSites : StorageRead → List Site
  | .threw => DEFAULT_SITES
  | .value none => DEFAULT_SITES
  | .value (some j) =>
      match j with
      | .arr elems =>
          let deduplicated := dedupKeep (elems.filterMap sanitizeSite) []
          if deduplicated = [] then DEFAULT_SITES else deduplicated
      | _ => DEFAULT_SITES

/-- `saveSites`, `sites.ts` lines 98-100, in the explicit-write convention:
the value returned in the second component of a mutating operation records
the list handed to `chrome.storage.local.set`. -/
def saveSites (sites : List Site) : Option (List Site) :=
  some sites

/-- Result type of `addSite` and `importSitesFromJson`: success with the
updated sequence, or a structured failure carrying a message key. -/
inductive AddResult where
  | ok (sites : List Site) : AddResult
  | err (message : String) : AddResult
deriving DecidableEq, Repr

/-- `generateKey`, `sites.ts` lines 126-143: collect the upper-cased used
keys; a truthy preferred key is trimmed and upper-cased and returned when it
is a valid and unused shortcut key; otherwise the fixed alphabet is scanned
in order for the first unused key, and `none` models the `null` returned when
all 36 keys are used. -/
def generateKey (existingSites : List Site) (preferred : Option String) :
    Option String :=
  let used := existingSites.map (fun s => jsToUpper s.key)
  let fromPreferred : Option String :=
    match preferred with
    | some p =>
        if p ≠ "" then
          let np := jsToUpper (jsTrim p)
          if np ∈ VALID_KEYS ∧ np ∉ used then some np else none
        else none
    | none => none
  match fromPreferred with
  | some np => some np
  | none => VALID_KEYS.find? (fun c => c ∉ used)

/-- `addSite`, `sites.ts` lines 145-161, in the snapshot-passing form (the
`baseSites` argument supplied; when it is omitted the code first runs
`loadSites`, modelled separately): report a duplicate when some existing
site's upper-cased key equals the upper-cased raw input key, then sanitize,
then append, persist and return the updated sequence. -/
def addSite (site : Site) (sites : List Site) :
    AddResult × Option (List Site) :=
  if (sites.find? (fun s => jsToUpper s.key = jsToUpper site.key)).isSome then
    (.err "shortcutKeyAlreadyUsed", none)
  else
    match sanitizeFields site.name site.url site.key with
    | none => (.err "invalidSiteInfo", none)
    | some normalizedSite =>
        let updated := sites ++ [normalizedSite]
        (.ok updated, saveSites updated)

/-- Indexed filter of the JavaScript `Array.prototype.filter` callback
`(_, i) => i !== index`. -/
def filterWithIndex (keep : Nat → Bool) : Nat → List Site → List Site
  | _, [] => []
  | i, s :: rest =>
      if keep i then s :: filterWithIndex keep (i + 1) rest
      else filterWithIndex keep (i + 1) rest

/-- `removeSiteByIndex`, `sites.ts` lines 163-168, in snapshot-passing form:
keep every element whose position differs from `index`, persist and return
the result.  The index is an integer so that negative inputs are covered. -/
def removeSiteByIndex (index : Int) (sites : List Site) :
    List Site × Option (List Site) :=
  let updated := filterWithIndex (fun i => (i : Int) ≠ index) 0 sites
  (updated, saveSites updated)

/-- `upsertSite`, `sites.ts` lines 170-189: the code operates on the list the
internal `loadSites()` call produced, passed here explicitly as `loaded`.
An input rejected by `sanitizeSite` returns the loaded list without writing;
otherwise the first entry whose key equals (strictly) the sanitized key is
replaced in place, or the sanitized site is appended, and the result is
persisted. -/
def upsertSite (site : Site) (loaded : List Site) :
    List Site × Option (List Site) :=
  match sanitizeFields site.name site.url site.key with
  | none => (loaded, none)
  | some normalizedSite =>
      match loaded.findIdx? (fun s => s.key = normalizedSite.key) with
      | some i =>
          let updated := loaded.set i normalizedSite
          (updated, saveSites updated)
      | none =>
          let updated := loaded ++ [normalizedSite]
          (updated, saveSites updated)

/-- `exportSitesAsJson`, `sites.ts` lines 191-194: the JSON document built
from the loaded registry (passed explicitly) and the timestamp string
produced by `new Date().toISOString()`. -/
def exportSitesAsJson (loaded : List Site) (exportedAt : String) : Json :=
  .obj [("version", .num 1), ("exportedAt", .str exportedAt),
        ("sites", .arr (loaded.map siteToJson))]

/-- Candidate extraction of `importSitesFromJson`, `sites.ts` line 199:
`Array.isArray(parsed?.sites) ? parsed.sites : parsed`. -/
def importCandidate (p : Json) : Json :=
  match p with
  | .obj fields =>
      match jlookup fields "sites" with
      | some (.arr l) => Json.arr l
      | _ => p
  | _ => p

/-- `importSitesFromJson`, `sites.ts` lines 196-212, on the outcome of
`JSON.parse(json)` (`none` when the parse throws, which the `catch` turns
into the parse-failure message): extract the candidate array, sanitize it,
fail without writing when nothing survives, otherwise overwrite the store
with the sanitized list and return it. -/
def importSitesFromJson (parsed : Option Json) :
    AddResult × Option (List Site) :=
  match parsed with
  | none => (.err "jsonParseFailed", none)
  | some p =>
      let sanitized := sanitizeSiteList (importCandidate p)
      if sanitized = [] then (.err "noSitesToImport", none)
      else (.ok sanitized, saveSites sanitized)

/-- The key-uniqueness invariant of the spec's data model: the upper-cased
keys of the registry are pairwise distinct. -/
def keysDistinct (l : List Site) : Prop :=
  (l.map (fun s => jsToUpper s.key)).Nodup

instance (l : List Site) : Decidable (keysDistinct l) := by
  unfold keysDistinct; infer_instance

/-- A demonstration site carrying a given shortcut key. -/
def siteWithKey (k : String) : Site :=
  { name := "Site", url := "https://example.com", key := k }

/-- A 51-character name, one past the length bound stated in the spec's data
model. -/
def longName : String :=
  "aaaaaaaaaaaaaaaaaaaaaaaaaaaaaaaaaaaaaaaaaaaaaaaaaaa"

/-- A site whose stored url does not parse (its port is not numeric); it is
the output of sanitizing `{name: "x", url: "a:b", key: "A"}`. -/
def badUrlSite : Site :=
  { name := "x", url := "https://a:b", key := "A" }

/-- Modelled from the claim's words (C4), for refinement comparison with
`generateKey`: the preferred key is returned exactly when, after upper-casing
(with no trimming), it is a valid shortcut key that is not already used;
otherwise the fixed alphabet is scanned. -/
def generateKeyClaim (existingSites : List Site) (preferred : Option String) :
    Option String :=
  let used := existingSites.map (fun s => jsToUpper s.key)
  match preferred with
  | some p =>
      let np := jsToUpper p
      if np ∈ VALID_KEYS ∧ np ∉ used then some np
      else VALID_KEYS.find? (fun c => c ∉ used)
  | none => VALID_KEYS.find? (fun c => c ∉ used)

/-!  Theorems.  First a few shared helper lemmas about the definitions. -/

/-- Every valid shortcut key is fixed by upper-casing. -/
theorem validKeys_upper_fixed : ∀ k ∈ VALID_KEYS, jsToUpper k = k := by decide

/-- Unfolding of a successful `sanitizeFields` run: the output record, the
validity of its key and the parse success of the raw url. -/
theorem sanitizeFields_eq {n u k : String} {s : Site}
    (h : sanitizeFields n u k = some s) :
    s = { name := jsTrim n, url := normalizeUrl u, key := jsToUpper (jsTrim k) }
  ∧ jsToUpper (jsTrim k) ∈ VALID_KEYS ∧ jsURLCanParse u = true := by
  simp only [sanitizeFields] at h
  split at h
  · exact Option.noConfusion h
  split at h
  · exact Option.noConfusion h
  split at h
  · exact Option.noConfusion h
  split at h
  · exact Option.noConfusion h
  split at h
  · exact Option.noConfusion h
  rename_i h1 h2 h3 h4 h5
  exact ⟨(Option.some.inj h).symm, not_not.mp h4, not_not.mp h5⟩

/-- Extraction step: sanitizing the JSON record printed for a Site runs the
string-level rules on its three fields. -/
theorem sanitizeSite_siteToJson (s : Site) :
    sanitizeSite (siteToJson s) = sanitizeFields s.name s.url s.key := rfl

/-- The key of every sanitized Site is a valid shortcut key. -/
theorem sanitizeSite_key_mem {j : Json} {s : Site}
    (h : sanitizeSite j = some s) : s.key ∈ VALID_KEYS := by
  unfold sanitizeSite at h
  split at h
  · split at h
    · rename_i n u k heq
      obtain ⟨hs, hmem, -⟩ := sanitizeFields_eq h
      rw [hs]
      exact hmem
    · exact Option.noConfusion h
  · exact Option.noConfusion h

/-- The key of every sanitized Site is fixed by upper-casing. -/
theorem sanitizeSite_key_fixed {j : Json} {s : Site}
    (h : sanitizeSite j = some s) : jsToUpper s.key = s.key :=
  validKeys_upper_fixed _ (sanitizeSite_key_mem h)

/-- The deduplication loop of `sanitizeSiteList` yields pairwise distinct
keys; its outputs keep upper-case-fixed keys and avoid the seen-set. -/
theorem dedupUpper_spec : ∀ (l : List Site) (seen : List String),
    (∀ s ∈ l, jsToUpper s.key = s.key) →
    (∀ t ∈ dedupUpper l seen, jsToUpper t.key = t.key ∧ t.key ∉ seen) ∧
    keysDistinct (dedupUpper l seen)
  | [], seen, _ => by simp [dedupUpper, keysDistinct]
  | s :: rest, seen, hl => by
    have hs : jsToUpper s.key = s.key := hl s (by simp)
    have hrest : ∀ t ∈ rest, jsToUpper t.key = t.key :=
      fun t ht => hl t (by simp [ht])
    by_cases hmem : jsToUpper s.key ∈ seen
    · have ih := dedupUpper_spec rest seen hrest
      simpa [dedupUpper, hmem] using ih
    · have ih := dedupUpper_spec rest (jsToUpper s.key :: seen) hrest
      have hshape : dedupUpper (s :: rest) seen =
          { s with key := jsToUpper s.key } ::
            dedupUpper rest (jsToUpper s.key :: seen) := by
        simp only [dedupUpper]
        rw [if_neg hmem]
      rw [hshape]
      constructor
      · intro t ht
        rcases List.mem_cons.mp ht with h | h
        · subst h
          refine ⟨?_, ?_⟩
          · show jsToUpper (jsToUpper s.key) = jsToUpper s.key
            simp [hs]
          · show jsToUpper s.key ∉ seen
            exact hmem
        · exact ⟨(ih.1 t h).1, fun hc => (ih.1 t h).2 (List.mem_cons_of_mem _ hc)⟩
      · show keysDistinct _
        unfold keysDistinct
        rw [List.map_cons, List.nodup_cons]
        constructor
        · intro hc
          rcases List.mem_map.mp hc with ⟨t, ht, hkey⟩
          have h1 := (ih.1 t ht).1
          have h2 := (ih.1 t ht).2
          rw [h1] at hkey
          have : t.key = jsToUpper s.key := by
            have : jsToUpper (jsToUpper s.key) = jsToUpper s.key := by simp [hs]
            rw [show ({ s with key := jsToUpper s.key } : Site).key =
              jsToUpper s.key from rfl, this] at hkey
            exact hkey
          exact h2 (this ▸ List.mem_cons_self _ _)
        · exact ih.2

/-- The sanitized survivors of any list of JSON records have
upper-case-fixed keys. -/
theorem sanitized_keys_fixed (elems : List Json) :
    ∀ s ∈ elems.filterMap sanitizeSite, jsToUpper s.key = s.key := by
  intro s hs
  rcases List.mem_filterMap.mp hs with ⟨j, -, hj⟩
  exact sanitizeSite_key_fixed hj

/-- `sanitizeSiteList` always yields pairwise distinct keys. -/
theorem sanitizeSiteList_distinct (j : Json) : keysDistinct (sanitizeSiteList j) := by
  cases j with
  | arr elems => exact (dedupUpper_spec _ [] (sanitized_keys_fixed elems)).2
  | null => simp [sanitizeSiteList, keysDistinct]
  | bool b => simp [sanitizeSiteList, keysDistinct]
  | num n => simp [sanitizeSiteList, keysDistinct]
  | str s => simp [sanitizeSiteList, keysDistinct]
  | obj fields => simp [sanitizeSiteList, keysDistinct]

/-- The deduplication loop is the identity on a list whose keys are
upper-case fixed, pairwise distinct and outside the seen-set. -/
theorem dedupUpper_id : ∀ (l : List Site) (seen : List String),
    (∀ s ∈ l, jsToUpper s.key = s.key) → keysDistinct l →
    (∀ s ∈ l, s.key ∉ seen) → dedupUpper l seen = l
  | [], _, _, _, _ => rfl
  | s :: rest, seen, hfix, hd, hseen => by
    have hs : jsToUpper s.key = s.key := hfix s (by simp)
    have hnotin : jsToUpper s.key ∉ seen := by
      rw [hs]; exact hseen s (by simp)
    simp only [dedupUpper]
    rw [if_neg hnotin]
    have hhead : ({ s with key := jsToUpper s.key } : Site) = s := by
      rw [hs]
    rw [hhead]
    congr 1
    have hd' : keysDistinct rest := by
      have := hd
      unfold keysDistinct at this ⊢
      rw [List.map_cons, List.nodup_cons] at this
      exact this.2
    have hne : ∀ t ∈ rest, t.key ≠ s.key := by
      intro t ht hc
      have := hd
      unfold keysDistinct at this
      rw [List.map_cons, List.nodup_cons] at this
      exact this.1 (List.mem_map.mpr ⟨t, ht,
        by rw [hfix t (by simp [ht]), hc, hs]⟩)
    apply dedupUpper_id rest (jsToUpper s.key :: seen)
      (fun t ht => hfix t (by simp [ht])) hd'
    intro t ht
    rw [List.mem_cons]
    push_neg
    exact ⟨by rw [hs]; exact hne t ht, hseen t (by simp [ht])⟩

/-- The indexed filter used by `removeSiteByIndex` yields a sublist. -/
theorem filterWithIndex_sublist (keep : Nat → Bool) :
    ∀ (n : Nat) (l : List Site), (filterWithIndex keep n l).Sublist l
  | _, [] => List.Sublist.slnil
  | n, s :: rest => by
    simp only [filterWithIndex]
    split
    · exact List.Sublist.cons₂ s (filterWithIndex_sublist keep (n + 1) rest)
    · exact List.Sublist.cons s (filterWithIndex_sublist keep (n + 1) rest)

/-- The indexed filter keeps everything when the predicate holds on the whole
index range. -/
theorem filterWithIndex_eq_self (keep : Nat → Bool) :
    ∀ (n : Nat) (l : List Site),
      (∀ i, i < l.length → keep (n + i) = true) → filterWithIndex keep n l = l
  | _, [], _ => rfl
  | n, s :: rest, h => by
    have h0 : keep n = true := by simpa using h 0 (by simp)
    simp only [filterWithIndex, h0, if_true]
    exact congrArg (s :: ·) (filterWithIndex_eq_self keep (n + 1) rest
      (fun i hi => by
        have := h (i + 1) (by simpa using Nat.succ_lt_succ hi)
        simpa [Nat.add_assoc, Nat.add_comm 1 i] using this))

/-- Setting a position of a list to the element already there changes
nothing. -/
theorem set_get_self {α : Type} : ∀ (l : List α) (i : Nat) (h : i < l.length),
    l.set i (l.get ⟨i, h⟩) = l
  | _ :: _, 0, _ => rfl
  | a :: t, i + 1, h =>
    congrArg (a :: ·) (set_get_self t i (Nat.lt_of_succ_lt_succ h))

/-- A successful `findIdx?` yields an in-range position satisfying the
predicate. -/
theorem findIdx?_some_spec {α : Type} {p : α → Bool} :
    ∀ (l : List α) (start i : Nat), List.findIdx? p l start = some i →
      ∃ j : Nat, ∃ h : j < l.length, start + j = i ∧ p (l.get ⟨j, h⟩) = true
  | [], start, i, h => by simp at h
  | a :: t, start, i, h => by
    rw [List.findIdx?_cons] at h
    split at h
    · rename_i hp
      exact ⟨0, by simp, by simpa using Option.some.inj h, hp⟩
    · rcases findIdx?_some_spec t (start + 1) i h with ⟨j, hj, heq, hp⟩
      exact ⟨j + 1, Nat.succ_lt_succ hj, by omega, hp⟩

/-- A failing `findIdx?` means the predicate fails everywhere. -/
theorem findIdx?_none_spec {α : Type} {p : α → Bool} :
    ∀ (l : List α) (start : Nat), List.findIdx? p l start = none →
      ∀ x ∈ l, p x = false
  | [], _, _, x, hx => by simp at hx
  | a :: t, start, h, x, hx => by
    rw [List.findIdx?_cons] at h
    split at h
    · exact Option.noConfusion h
    · rename_i hp
      rcases List.mem_cons.mp hx with rfl | hxt
      · exact Bool.not_eq_true _ ▸ by simpa using hp
      · exact findIdx?_none_spec t (start + 1) h x hxt

/-- C1.  The claim says `sanitizeSite` validates the url after scheme
normalization, so that `add({name:"Google", url:"google.com", key:"g"}, [])`
succeeds with url `https://google.com`.  The code does the opposite: it parses
the raw url (`new URL(url)`, line 42) before `normalizeUrl` is applied to the
output (line 49), so the bare host is rejected with the invalid-site failure,
even though the normalized url would parse.  The repository's own form
components (`AddSiteForm.tsx`) and the spec's data model normalize before
validating, so the claim records the intent and the code diverges from it. -/
theorem addSite_bare_host_rejected :
    addSite { name := "Google", url := "google.com", key := "g" } [] =
      (.err "invalidSiteInfo", none)
  ∧ jsURLCanParse "google.com" = false
  ∧ normalizeUrl "google.com" = "https://google.com"
  ∧ jsURLCanParse "https://google.com" = true := by
  refine ⟨rfl, rfl, ?_, rfl⟩
  decide

/-- C7.  Re-sanitizing is not idempotent on every accepted record: the record
`{name:"x", url:"a:b", key:"A"}` is accepted (an opaque `a:` scheme parses),
its url is stored as `https://a:b`, and sanitizing the returned Site again
yields `null` because `https://a:b` has a non-numeric port.  Under the
normalize-before-validate order stated by the spec (and used by the form
components) idempotence would hold, so the code diverges from the intent. -/
theorem sanitizeSite_not_idempotent_on_opaque_scheme :
    sanitizeSite (siteToJson { name := "x", url := "a:b", key := "A" }) =
      some badUrlSite
  ∧ sanitizeSite (siteToJson badUrlSite) = none := ⟨rfl, rfl⟩

/-- C2, counterexample.  The duplicate check of `addSite` upper-cases the raw
input key but does not trim it, while `sanitizeSite` trims before storing: a
key of `" g "` therefore slips past the check against an existing `"G"` and
the persisted registry ends with two sites whose keys are equal.  This
refutes the claim's quantification over keys that are not pre-normalized. -/
theorem addSite_untrimmed_key_breaks_uniqueness :
    addSite { name := "X", url := "https://x.com", key := " g " }
        [{ name := "Google", url := "https://google.com", key := "G" }] =
      (.ok [{ name := "Google", url := "https://google.com", key := "G" },
            { name := "X", url := "https://x.com", key := "G" }],
       some [{ name := "Google", url := "https://google.com", key := "G" },
             { name := "X", url := "https://x.com", key := "G" }])
  ∧ ¬ keysDistinct
        [{ name := "Google", url := "https://google.com", key := "G" },
         { name := "X", url := "https://x.com", key := "G" }] := by
  refine ⟨rfl, ?_⟩
  decide

/-- C4, counterexample.  The claim's example `generateKey([{key:"A"}], "A") ==
"C"` is wrong on the code: the scan starts at the first unused character, so
the result is `"B"`.  The claim also omits the trimming of the preferred key:
for a preferred key of `" b "` the code trims and returns `"B"`, whereas the
claim's own rule (upper-casing only, so `" B "` is not a legal key) would fall
through to the scan and return `"A"`, as the claim-words model
`generateKeyClaim` does. -/
theorem generateKey_preferred_taken_returns_B :
    generateKey [siteWithKey "A"] (some "A") = some "B"
  ∧ generateKey [siteWithKey "A"] (some "A") ≠ some "C"
  ∧ generateKey [] (some " b ") = some "B"
  ∧ generateKeyClaim [] (some " b ") = some "A" := by
  refine ⟨rfl, ?_, rfl, rfl⟩
  decide

/-- C5, counterexample.  The text `"42"` is valid JSON whose shape cannot be
coerced to an array, so the claim requires a parse-error failure; the code
instead runs `sanitizeSiteList` on the number, obtains the empty list and
fails with the empty-import message. -/
theorem importSites_nonarray_shape_not_parse_error :
    importSitesFromJson (some (.num 42)) = (.err "noSitesToImport", none)
  ∧ AddResult.err "noSitesToImport" ≠ .err "jsonParseFailed" := by
  refine ⟨rfl, ?_⟩
  decide

/-- C8, counterexample.  Importing `[{name:"x", url:"a:b", key:"A"}]`
persists the registry `[{name:"x", url:"https://a:b", key:"A"}]` — a
reachable, non-empty persisted registry.  Exporting it and importing the
export fails with the empty-import message instead of reproducing it, because
the stored url `https://a:b` no longer parses and is dropped by
`sanitizeSite`. -/
theorem export_import_round_trip_fails_on_unparseable_url :
    importSitesFromJson
        (some (.arr [siteToJson { name := "x", url := "a:b", key := "A" }])) =
      (.ok [badUrlSite], some [badUrlSite])
  ∧ importSitesFromJson
        (some (exportSitesAsJson [badUrlSite] "2024-01-01T00:00:00.000Z")) =
      (.err "noSitesToImport", none) := ⟨rfl, rfl⟩

/-- C3.  Contract of `addSite` on a snapshot: a case-insensitive key match in
the existing sites fails with the duplicate-key message (whatever the urls
are), otherwise a record rejected by `sanitizeSite` fails with the
invalid-site message, otherwise the sanitized site is appended at the end,
persisted, and returned.  Each failure carries its message key and performs
no write, so no partial mutation is observable. -/
theorem addSite_contract (site : Site) (sites : List Site) :
    ((∃ t ∈ sites, jsToUpper t.key = jsToUpper site.key) →
      addSite site sites = (.err "shortcutKeyAlreadyUsed", none))
  ∧ ((∀ t ∈ sites, jsToUpper t.key ≠ jsToUpper site.key) →
      (sanitizeFields site.name site.url site.key = none →
        addSite site sites = (.err "invalidSiteInfo", none))
    ∧ (∀ n, sanitizeFields site.name site.url site.key = some n →
        addSite site sites = (.ok (sites ++ [n]), some (sites ++ [n])))) := by
  constructor
  · rintro ⟨t, ht, hk⟩
    have hfound : (sites.find?
        (fun s => jsToUpper s.key = jsToUpper site.key)).isSome = true :=
      List.find?_isSome.mpr ⟨t, ht, by simp [hk]⟩
    simp [addSite, hfound]
  · intro hall
    have hnone : sites.find?
        (fun s => jsToUpper s.key = jsToUpper site.key) = none :=
      List.find?_eq_none.mpr (fun t ht => by simpa using hall t ht)
    constructor
    · intro hs
      simp [addSite, hnone, hs]
    · intro n hs
      simp [addSite, hnone, hs, saveSites]

/-- C3, witness.  A concrete duplicate: adding a site with key `"g"` to a
registry that holds key `"G"` fails with the duplicate-key message and does
not write, even though the urls differ. -/
theorem addSite_contract_witness :
    addSite { name := "Gmail", url := "https://gmail.com", key := "g" }
        [{ name := "Google", url := "https://google.com", key := "G" }] =
      (.err "shortcutKeyAlreadyUsed", none) :=
  (addSite_contract
    { name := "Gmail", url := "https://gmail.com", key := "g" }
    [{ name := "Google", url := "https://google.com", key := "G" }]).1
    ⟨{ name := "Google", url := "https://google.com", key := "G" },
      by simp, by decide⟩

/-- C6.  `loadSites` never yields an empty list and never passes a storage
failure on: a thrown read, an absent value and a non-array value all yield
the built-in default, an array is sanitized and deduplicated, and the default
is substituted when nothing survives. -/
theorem loadSites_total_fallback :
    (∀ r, loadSites r ≠ [])
  ∧ loadSites .threw = DEFAULT_SITES
  ∧ loadSites (.value none) = DEFAULT_SITES
  ∧ (∀ j : Json, (∀ l, j ≠ .arr l) → loadSites (.value (some j)) = DEFAULT_SITES)
  ∧ (∀ elems : List Json,
      loadSites (.value (some (.arr elems))) =
        (if dedupKeep (elems.filterMap sanitizeSite) [] = [] then DEFAULT_SITES
         else dedupKeep (elems.filterMap sanitizeSite) [])) := by
  refine ⟨?_, rfl, rfl, ?_, ?_⟩
  · intro r
    cases r with
    | threw => simp [loadSites, DEFAULT_SITES]
    | value v =>
      cases v with
      | none => simp [loadSites, DEFAULT_SITES]
      | some j =>
        cases j with
        | arr elems =>
          show (if dedupKeep (elems.filterMap sanitizeSite) [] = []
            then DEFAULT_SITES
            else dedupKeep (elems.filterMap sanitizeSite) []) ≠ []
          split
          · simp [DEFAULT_SITES]
          · assumption
        | null => simp [loadSites, DEFAULT_SITES]
        | bool b => simp [loadSites, DEFAULT_SITES]
        | num n => simp [loadSites, DEFAULT_SITES]
        | str s => simp [loadSites, DEFAULT_SITES]
        | obj fields => simp [loadSites, DEFAULT_SITES]
  · intro j hj
    cases j with
    | arr l => exact absurd rfl (hj l)
    | null => rfl
    | bool b => rfl
    | num n => rfl
    | str s => rfl
    | obj fields => rfl
  · intro elems
    rfl

/-- C6, witness.  The non-array stored value `0` falls back to the default
registry. -/
theorem loadSites_total_fallback_witness :
    loadSites (.value (some (.num 0))) = DEFAULT_SITES ∧
    loadSites (.value (some (.num 0))) ≠ [] :=
  ⟨loadSites_total_fallback.2.2.2.1 (.num 0) (fun _ h => nomatch h),
   loadSites_total_fallback.1 _⟩

/-- A filterMap by a function that succeeds identically on every member is
the identity. -/
theorem filterMap_id_of_some {α : Type} {f : α → Option α} :
    ∀ (l : List α), (∀ x ∈ l, f x = some x) → l.filterMap f = l
  | [], _ => rfl
  | a :: t, h => by
    rw [List.filterMap_cons, h a (by simp)]
    exact congrArg (a :: ·) (filterMap_id_of_some t (fun x hx => h x (by simp [hx])))

/-- A url accepted by the URL constructor cannot be all whitespace. -/
theorem jsURLCanParse_trim_ne {u : String} (h : jsURLCanParse u = true) :
    jsTrim u ≠ "" := by
  intro he
  have hinput : urlInput u = [] := by
    unfold urlInput
    rw [he]
    rfl
  unfold jsURLCanParse at h
  rw [hinput] at h
  simp [urlSplitScheme] at h

/-- The output of `normalizeUrl` on a not-all-whitespace input starts with an
http or https scheme. -/
theorem normalizeUrl_scheme {u : String} (h : jsTrim u ≠ "") :
    hasHttpScheme (normalizeUrl u).data = true := by
  unfold normalizeUrl
  rw [if_neg h]
  by_cases hh : hasHttpScheme (jsTrim u).data = true
  · rw [if_pos hh]
    exact hh
  · rw [if_neg hh]
    have hdata : ("https://" ++ jsTrim u).data =
        "https://".data ++ (jsTrim u).data := String.data_append _ _
    unfold hasHttpScheme
    rw [hdata]
    simp only [decide_eq_true_eq]
    right
    have hlen : ("https://".data).length = 8 := rfl
    rw [← hlen, List.take_left]
    decide

/-- C10.  Removing at an out-of-bounds index (negative, or at least the
length) keeps every element and still persists the unchanged sequence. -/
theorem removeSiteByIndex_out_of_bounds_noop (index : Int) (sites : List Site)
    (h : index < 0 ∨ (sites.length : Int) ≤ index) :
    removeSiteByIndex index sites = (sites, some sites) := by
  have hkeep : filterWithIndex (fun i => (i : Int) ≠ index) 0 sites = sites := by
    apply filterWithIndex_eq_self
    intro i hi
    simp only [decide_eq_true_eq]
    omega
  unfold removeSiteByIndex
  rw [hkeep]
  rfl

/-- C10, witness.  Removing index 99 from a 3-element registry returns the 3
elements unchanged and persists them. -/
theorem removeSiteByIndex_out_of_bounds_noop_witness :
    ((99 : Int) < 0 ∨ (([siteWithKey "A", siteWithKey "B", siteWithKey "C"].length : Int) ≤ 99))
  ∧ removeSiteByIndex 99 [siteWithKey "A", siteWithKey "B", siteWithKey "C"] =
      ([siteWithKey "A", siteWithKey "B", siteWithKey "C"],
       some [siteWithKey "A", siteWithKey "B", siteWithKey "C"]) :=
  ⟨by decide,
   removeSiteByIndex_out_of_bounds_noop 99
     [siteWithKey "A", siteWithKey "B", siteWithKey "C"] (by decide)⟩

/-- C2, amended.  `sanitizeSiteList` always yields pairwise distinct keys
(case-insensitively, first occurrence winning), and the mutating operations
preserve pairwise distinct keys — for `addSite` under the proviso that the
input site's key carries no surrounding whitespace (the counterexample shows
the claim fails without it), and for `upsertSite` on the `loadSites` snapshot
it operates on, whose keys are upper-case fixed. -/
theorem registry_keys_distinct_invariant :
    (∀ j : Json, keysDistinct (sanitizeSiteList j))
  ∧ (∀ (site : Site) (sites out : List Site) (w : Option (List Site)),
      keysDistinct sites → jsTrim site.key = site.key →
      addSite site sites = (.ok out, w) → keysDistinct out)
  ∧ (∀ (index : Int) (sites : List Site), keysDistinct sites →
      keysDistinct (removeSiteByIndex index sites).1)
  ∧ (∀ (site : Site) (loaded : List Site), keysDistinct loaded →
      (∀ s ∈ loaded, jsToUpper s.key = s.key) →
      keysDistinct (upsertSite site loaded).1)
  ∧ (∀ (p : Option Json) (out : List Site) (w : Option (List Site)),
      importSitesFromJson p = (.ok out, w) → keysDistinct out) := by
  refine ⟨sanitizeSiteList_distinct, ?_, ?_, ?_, ?_⟩
  · -- addSite
    intro site sites out w hd htrim h
    unfold addSite at h
    split at h
    · simp at h
    · rename_i hfind
      have hnone : sites.find?
          (fun s => jsToUpper s.key = jsToUpper site.key) = none := by
        cases hf : sites.find? (fun s => jsToUpper s.key = jsToUpper site.key)
        · rfl
        · rw [hf] at hfind
          simp at hfind
      have hall : ∀ t ∈ sites, ¬ (jsToUpper t.key = jsToUpper site.key) := by
        intro t ht
        have := List.find?_eq_none.mp hnone t ht
        simpa using this
      split at h
      · simp at h
      · rename_i n hs
        have hout : out = sites ++ [n] := by
          simp only [Prod.mk.injEq] at h
          exact (AddResult.ok.inj h.1).symm
        obtain ⟨hn, hmem, -⟩ := sanitizeFields_eq hs
        have hnkey : n.key = jsToUpper site.key := by
          rw [hn]
          show jsToUpper (jsTrim site.key) = jsToUpper site.key
          rw [htrim]
        have hfix : jsToUpper n.key = n.key := by
          rw [hn]
          exact validKeys_upper_fixed _ hmem
        subst hout
        unfold keysDistinct
        rw [List.map_append, List.nodup_append]
        refine ⟨hd, by simp, ?_⟩
        intro a ha hb
        rcases List.mem_map.mp ha with ⟨t, ht, rfl⟩
        simp only [List.map_cons, List.map_nil, List.mem_cons,
          List.not_mem_nil, or_false] at hb
        exact hall t ht (hb.trans (hfix.trans hnkey))
  · -- removeSiteByIndex
    intro index sites hd
    show keysDistinct (filterWithIndex _ 0 sites)
    unfold keysDistinct
    exact List.Nodup.sublist
      (List.Sublist.map _ (filterWithIndex_sublist _ 0 sites)) hd
  · -- upsertSite
    intro site loaded hd hfixAll
    cases hs : sanitizeFields site.name site.url site.key with
    | none =>
      simp only [upsertSite, hs]
      exact hd
    | some n =>
      obtain ⟨hn, hmem, -⟩ := sanitizeFields_eq hs
      have hnfix : jsToUpper n.key = n.key := by
        rw [hn]; exact validKeys_upper_fixed _ hmem
      cases hidx : loaded.findIdx? (fun s => s.key = n.key) with
      | some i =>
        rcases findIdx?_some_spec loaded 0 i hidx with ⟨j, hj, hji, hp⟩
        have hj0 : j = i := by omega
        subst hj0
        have hkeyeq : (loaded.get ⟨j, hj⟩).key = n.key := by simpa using hp
        simp only [upsertSite, hs, hidx]
        show keysDistinct (loaded.set j n)
        unfold keysDistinct
        rw [List.map_set]
        have hval : jsToUpper n.key =
            (loaded.map (fun s => jsToUpper s.key)).get
              ⟨j, by simpa using hj⟩ := by
          rw [List.get_map]
          rw [hnfix, ← hkeyeq]
          exact (hfixAll _ (List.get_mem loaded _ _)).symm
        rw [hval, set_get_self]
        exact hd
      | none =>
        have hnotin : ∀ t ∈ loaded, t.key ≠ n.key := by
          intro t ht
          have := findIdx?_none_spec loaded 0 hidx t ht
          simpa using this
        simp only [upsertSite, hs, hidx]
        show keysDistinct (loaded ++ [n])
        unfold keysDistinct
        rw [List.map_append, List.nodup_append]
        refine ⟨hd, by simp, ?_⟩
        intro a ha hb
        rcases List.mem_map.mp ha with ⟨t, ht, rfl⟩
        simp only [List.map_cons, List.map_nil, List.mem_cons,
          List.not_mem_nil, or_false] at hb
        exact hnotin t ht (((hfixAll t ht).symm.trans hb).trans hnfix)
  · -- importSitesFromJson
    intro p out w h
    unfold importSitesFromJson at h
    cases p with
    | none => simp at h
    | some v =>
      dsimp only at h
      split at h
      · simp at h
      · have hout : out = sanitizeSiteList (importCandidate v) := by
          simp only [Prod.mk.injEq] at h
          exact (AddResult.ok.inj h.1).symm
        subst hout
        exact sanitizeSiteList_distinct _

/-- C2, amended, witness.  Adding a site with the trimmed key `"E"` to the
distinct-key registry holding `"G"` preserves distinctness. -/
theorem registry_keys_distinct_invariant_witness :
    keysDistinct [{ name := "Google", url := "https://google.com", key := "G" }]
  ∧ jsTrim "E" = "E"
  ∧ keysDistinct
      [{ name := "Google", url := "https://google.com", key := "G" },
       { name := "Example", url := "https://example.com", key := "E" }] :=
  ⟨by decide, by decide,
   registry_keys_distinct_invariant.2.1
     { name := "Example", url := "https://example.com", key := "E" }
     [{ name := "Google", url := "https://google.com", key := "G" }]
     [{ name := "Google", url := "https://google.com", key := "G" },
      { name := "Example", url := "https://example.com", key := "E" }]
     (some [{ name := "Google", url := "https://google.com", key := "G" },
            { name := "Example", url := "https://example.com", key := "E" }])
     (by decide) (by decide) rfl⟩

/-- C9, counterexample.  The accepted record with name `"   "` is stored with
the empty name (the code tests truthiness before trimming and never checks a
length), a 51-character name is accepted unchanged, and the accepted record
with url `"a:b"` is stored with the url `https://a:b`, which is not a
well-formed absolute URL.  Each conjunct refutes one part of the claimed data
model. -/
theorem sanitizeSite_accepts_blank_and_long_names :
    sanitizeSite (siteToJson { name := "   ", url := "https://a.com", key := "a" }) =
      some { name := "", url := "https://a.com", key := "A" }
  ∧ sanitizeSite (siteToJson { name := longName, url := "https://a.com", key := "a" }) =
      some { name := longName, url := "https://a.com", key := "A" }
  ∧ longName.length = 51
  ∧ sanitizeSite (siteToJson { name := "x", url := "a:b", key := "A" }) =
      some badUrlSite
  ∧ jsURLCanParse "https://a:b" = false := ⟨rfl, rfl, rfl, rfl, rfl⟩

/-- C4, amended.  `generateKey` returns the trimmed and upper-cased preferred
key exactly when that normalized key is a valid shortcut key not already used
(case-insensitively); otherwise it scans the fixed alphabet `A..Z0..9` for
the first unused key, and returns the no-key-available result exactly when
all 36 keys are used.  The claim's examples hold with
`generateKey([{key:"A"}], "A") == "B"` in place of the claimed `"C"`. -/
theorem generateKey_characterization (existing : List Site)
    (preferred : Option String) :
    (∀ p, preferred = some p → p ≠ "" →
      jsToUpper (jsTrim p) ∈ VALID_KEYS →
      jsToUpper (jsTrim p) ∉ existing.map (fun s => jsToUpper s.key) →
      generateKey existing preferred = some (jsToUpper (jsTrim p)))
  ∧ ((∀ p, preferred = some p →
        p = "" ∨ jsToUpper (jsTrim p) ∉ VALID_KEYS ∨
        jsToUpper (jsTrim p) ∈ existing.map (fun s => jsToUpper s.key)) →
      generateKey existing preferred =
        VALID_KEYS.find?
          (fun c => c ∉ existing.map (fun s => jsToUpper s.key)))
  ∧ (generateKey existing preferred = none ↔
      ∀ c ∈ VALID_KEYS, c ∈ existing.map (fun s => jsToUpper s.key))
  ∧ generateKey [] none = some "A"
  ∧ generateKey [siteWithKey "A", siteWithKey "B"] none = some "C"
  ∧ generateKey (VALID_KEYS.map siteWithKey) none = none := by
  have hfind : (VALID_KEYS.find?
        (fun c => c ∉ existing.map (fun s => jsToUpper s.key)) = none) ↔
      ∀ c ∈ VALID_KEYS, c ∈ existing.map (fun s => jsToUpper s.key) := by
    rw [List.find?_eq_none]
    simp
  refine ⟨?_, ?_, ?_, rfl, ?_, ?_⟩
  · intro p hp hne hmem hnot
    subst hp
    simp only [generateKey]
    rw [if_pos hne, if_pos ⟨hmem, hnot⟩]
  · intro hfall
    cases preferred with
    | none => rfl
    | some p =>
      simp only [generateKey]
      by_cases hpe : p = ""
      · rw [if_neg (by simp [hpe])]
      · rw [if_pos hpe]
        rcases hfall p rfl with he | hnm | hin
        · exact absurd he hpe
        · rw [if_neg (fun hc => hnm hc.1)]
        · rw [if_neg (fun hc => hc.2 hin)]
  · constructor
    · intro h
      cases preferred with
      | none =>
        simp only [generateKey] at h
        exact hfind.mp h
      | some p =>
        simp only [generateKey] at h
        by_cases hpe : p = ""
        · rw [if_neg (by simp [hpe])] at h
          exact hfind.mp h
        · rw [if_pos hpe] at h
          by_cases hcond : jsToUpper (jsTrim p) ∈ VALID_KEYS ∧
              jsToUpper (jsTrim p) ∉ existing.map (fun s => jsToUpper s.key)
          · rw [if_pos hcond] at h
            exact absurd h (by simp)
          · rw [if_neg hcond] at h
            exact hfind.mp h
    · intro hall
      have hargs : VALID_KEYS.find?
          (fun c => c ∉ existing.map (fun s => jsToUpper s.key)) = none :=
        hfind.mpr hall
      cases preferred with
      | none =>
        simp only [generateKey]
        exact hargs
      | some p =>
        simp only [generateKey]
        by_cases hpe : p = ""
        · rw [if_neg (by simp [hpe])]
          exact hargs
        · rw [if_pos hpe]
          have hcond : ¬ (jsToUpper (jsTrim p) ∈ VALID_KEYS ∧
              jsToUpper (jsTrim p) ∉ existing.map (fun s => jsToUpper s.key)) :=
            fun hc => hc.2 (hall _ hc.1)
          rw [if_neg hcond]
          exact hargs
  · decide
  · decide

/-- C4, amended, witness.  A preferred key of `"g"` on the empty registry is
normalized and returned as `"G"`. -/
theorem generateKey_characterization_witness :
    ("g" : String) ≠ ""
  ∧ jsToUpper (jsTrim "g") ∈ VALID_KEYS
  ∧ jsToUpper (jsTrim "g") ∉ ([] : List Site).map (fun s => jsToUpper s.key)
  ∧ generateKey [] (some "g") = some (jsToUpper (jsTrim "g")) :=
  ⟨by decide, by decide, by decide,
   (generateKey_characterization [] (some "g")).1 "g" rfl (by decide)
     (by decide) (by decide)⟩

/-- C5, amended.  `importSitesFromJson` fails with the parse-error message
exactly when the text is not valid JSON (the parse throws); it fails with the
empty-import message exactly when the text parses but no record survives
sanitization and deduplication — in particular a valid-JSON shape that cannot
be coerced to an array yields the empty-import failure, not the parse
error — and only on success does it overwrite the persisted registry with
the sanitized list, which it returns; neither failure writes. -/
theorem importSites_error_contract (p : Option Json) :
    ((importSitesFromJson p).1 = .err "jsonParseFailed" ↔ p = none)
  ∧ (∀ j, p = some j →
      ((importSitesFromJson p).1 = .err "noSitesToImport" ↔
        sanitizeSiteList (importCandidate j) = []))
  ∧ (p = none → importSitesFromJson p = (.err "jsonParseFailed", none))
  ∧ (∀ j, p = some j → sanitizeSiteList (importCandidate j) = [] →
      importSitesFromJson p = (.err "noSitesToImport", none))
  ∧ (∀ j, p = some j → sanitizeSiteList (importCandidate j) ≠ [] →
      importSitesFromJson p =
        (.ok (sanitizeSiteList (importCandidate j)),
         some (sanitizeSiteList (importCandidate j)))) := by
  cases p with
  | none =>
    refine ⟨by simp [importSitesFromJson], ?_, fun _ => rfl, ?_, ?_⟩
    · intro j hj
      exact absurd hj (by simp)
    · intro j hj
      exact absurd hj (by simp)
    · intro j hj
      exact absurd hj (by simp)
  | some v =>
    have hbody : importSitesFromJson (some v) =
        (if sanitizeSiteList (importCandidate v) = []
          then (.err "noSitesToImport", none)
          else (.ok (sanitizeSiteList (importCandidate v)),
                some (sanitizeSiteList (importCandidate v)))) := rfl
    by_cases hs : sanitizeSiteList (importCandidate v) = []
    · rw [if_pos hs] at hbody
      refine ⟨?_, ?_, by simp, ?_, ?_⟩
      · rw [hbody]
        simp
      · intro j hj
        cases hj
        rw [hbody]
        simp [hs]
      · intro j hj
        cases hj
        intro _
        exact hbody
      · intro j hj
        cases hj
        intro hne
        exact absurd hs hne
    · rw [if_neg hs] at hbody
      refine ⟨?_, ?_, by simp, ?_, ?_⟩
      · rw [hbody]
        simp
      · intro j hj
        cases hj
        rw [hbody]
        simp [hs]
      · intro j hj
        cases hj
        intro hc
        exact absurd hc hs
      · intro j hj
        cases hj
        intro _
        exact hbody

/-- C5, amended, witness.  The empty JSON array parses, nothing survives, and
the import fails with the empty-import message without writing. -/
theorem importSites_error_contract_witness :
    sanitizeSiteList (importCandidate (.arr [])) = []
  ∧ importSitesFromJson (some (.arr [])) = (.err "noSitesToImport", none) :=
  ⟨rfl, (importSites_error_contract (some (.arr []))).2.2.2.1 (.arr []) rfl rfl⟩

/-- C8, amended.  The export/import round trip reproduces a non-empty
persisted registry exactly — order, names, urls and keys — provided its keys
are pairwise distinct and each of its sites is re-accepted unchanged by
`sanitizeSite` (which holds unless a stored url no longer parses, or a stored
name is empty; the counterexample shows the unrestricted claim fails). -/
theorem export_import_round_trip (R : List Site) (ts : String)
    (hne : R ≠ [])
    (hfix : ∀ s ∈ R, sanitizeFields s.name s.url s.key = some s)
    (hdist : keysDistinct R) :
    importSitesFromJson (some (exportSitesAsJson R ts)) = (.ok R, some R) := by
  have hcand : importCandidate (exportSitesAsJson R ts) =
      .arr (R.map siteToJson) := rfl
  have hfm : (R.map siteToJson).filterMap sanitizeSite = R := by
    rw [List.filterMap_map]
    exact filterMap_id_of_some R (fun s hs => hfix s hs)
  have hkfix : ∀ s ∈ R, jsToUpper s.key = s.key := by
    intro s hs
    obtain ⟨heq, hmem, -⟩ := sanitizeFields_eq (hfix s hs)
    have : s.key ∈ VALID_KEYS := by
      rw [heq]
      exact hmem
    exact validKeys_upper_fixed _ this
  have hdedup : dedupUpper R [] = R :=
    dedupUpper_id R [] hkfix hdist (by simp)
  have hlist : sanitizeSiteList (importCandidate (exportSitesAsJson R ts)) = R := by
    rw [hcand]
    show dedupUpper ((R.map siteToJson).filterMap sanitizeSite) [] = R
    rw [hfm, hdedup]
  show (if sanitizeSiteList (importCandidate (exportSitesAsJson R ts)) = []
      then ((.err "noSitesToImport" : AddResult), (none : Option (List Site)))
      else (.ok (sanitizeSiteList (importCandidate (exportSitesAsJson R ts))),
            some (sanitizeSiteList (importCandidate (exportSitesAsJson R ts))))) =
    (.ok R, some R)
  rw [hlist, if_neg hne]

/-- C8, amended, witness.  The singleton default registry round-trips through
export and import unchanged. -/
theorem export_import_round_trip_witness :
    DEFAULT_SITES ≠ []
  ∧ importSitesFromJson
      (some (exportSitesAsJson DEFAULT_SITES "2024-01-01T00:00:00.000Z")) =
      (.ok DEFAULT_SITES, some DEFAULT_SITES) :=
  ⟨by decide,
   export_import_round_trip DEFAULT_SITES "2024-01-01T00:00:00.000Z"
     (by decide) (by decide) (by decide)⟩

/-- C9, amended.  Every Site accepted by `sanitizeSite` has the trimmed input
name (with no emptiness or length guarantee beyond the pre-trim truthiness
check), the normalized input url, which always starts with an http or https
scheme (though it need not itself remain a parseable URL), and a key that is
exactly one upper-case character of `A-Z0-9`. -/
theorem sanitizeSite_output_shape (n u k : String) (s : Site)
    (h : sanitizeFields n u k = some s) :
    s.name = jsTrim n
  ∧ s.url = normalizeUrl u
  ∧ hasHttpScheme s.url.data = true
  ∧ s.key = jsToUpper (jsTrim k)
  ∧ s.key ∈ VALID_KEYS
  ∧ s.key.length = 1 := by
  obtain ⟨heq, hmem, hparse⟩ := sanitizeFields_eq h
  subst heq
  refine ⟨rfl, rfl, ?_, rfl, hmem, ?_⟩
  · exact normalizeUrl_scheme (jsURLCanParse_trim_ne hparse)
  · exact (by decide : ∀ x ∈ VALID_KEYS, x.length = 1) _ hmem

/-- C9, amended, witness.  A concrete accepted record obeys the amended
shape. -/
theorem sanitizeSite_output_shape_witness :
    sanitizeFields " Example " "https://example.com" "e" =
      some { name := "Example", url := "https://example.com", key := "E" }
  ∧ ({ name := "Example", url := "https://example.com", key := "E" } : Site).name =
      jsTrim " Example "
  ∧ hasHttpScheme
      ({ name := "Example", url := "https://example.com", key := "E" } : Site).url.data = true :=
  ⟨by decide,
   (sanitizeSite_output_shape " Example " "https://example.com" "e"
     { name := "Example", url := "https://example.com", key := "E" } (by decide)).1,
   (sanitizeSite_output_shape " Example " "https://example.com" "e"
     { name := "Example", url := "https://example.com", key := "E" } (by decide)).2.2.1⟩

end SiteLauncher
